import Mathlib

/-!
Verification of the documentation retrieval service (MCP doc server).

This file gives a shallow embedding, in Lean 4, of the core components of
the repository: the fact extractor and fact index, the lexical scorer, the
Markdown section parser, the search cache with singleflight deduplication,
the document update agent, and the RAG pipeline.  Pure TypeScript functions
become Lean functions over `List Char` / `String`; stateful code becomes
explicit state passing; the event-loop concurrency of the search cache
becomes a small-step transition system whose atomic steps are the segments
of JavaScript code between `await` points.

Modelling conventions, used throughout:
* JavaScript strings are Lean strings; `toLowerCase`, `trim` and the
  whitespace class `\s` are modelled character-wise on the ASCII fragment.
* JavaScript numbers are exact: integer scores are `Nat`, the grounding
  score arithmetic is `Rat` (all constants involved are exact decimals and
  only additions of non-negative values and `min` occur, so the order
  relations proved here agree with IEEE double evaluation).
* The SHA-1 digest is modelled by its preimage: the digest is a
  deterministic pure function of the preimage string, so two facts have
  equal digests whenever their preimages are equal, which is the only
  property about the digest used anywhere.
-/

/-- Membership of the JavaScript whitespace class `\s`, restricted to the
ASCII characters that occur in this development. -/
def jsWhitespace (c : Char) : Bool :=
  c = ' ' || c = '\t' || c = '\n' || c = '\r' || c = '\x0b' || c = '\x0c'

/-- The JavaScript `String.prototype.trim` on a character list. -/
def jsTrimList (l : List Char) : List Char :=
  ((l.dropWhile jsWhitespace).reverse.dropWhile jsWhitespace).reverse

/-- The JavaScript `String.prototype.trim`. -/
def jsTrim (s : String) : String :=
  ⟨jsTrimList s.data⟩

/-- The JavaScript `String.prototype.toLowerCase`, modelled character-wise
(ASCII fragment). -/
def jsToLower (s : String) : String :=
  ⟨s.data.map Char.toLower⟩

/-- Worker for substring search: does `n` occur as a contiguous run inside
`l`?  This models `String.prototype.includes`. -/
def inclAux (n : List Char) : List Char → Bool
  | [] => n.isEmpty
  | c :: t => n.isPrefixOf (c :: t) || inclAux n t

/-- The JavaScript `s.includes(sub)`. -/
def jsIncludes (s sub : String) : Bool :=
  inclAux sub.data s.data

theorem inclAux_iff (n l : List Char) : inclAux n l = true ↔ n <:+: l := by
  induction l with
  | nil =>
    simp only [inclAux, List.isEmpty_iff, List.infix_nil]
  | cons c t ih =>
    simp only [inclAux, Bool.or_eq_true, ih, List.isPrefixOf_iff_prefix,
      List.infix_cons_iff]

/-- Helper for the split functions: prepend a character to the first chunk. -/
def consHead (c : Char) : List (List Char) → List (List Char)
  | [] => [[c]]
  | l :: ls => (c :: l) :: ls

/-- The JavaScript `content.split("\n")` on character lists. -/
def splitNL : List Char → List (List Char)
  | [] => [[]]
  | '\n' :: rest => [] :: splitNL rest
  | c :: rest => consHead c (splitNL rest)

/-- The JavaScript `content.split(/\r?\n/)` on character lists: separators
are the two-character sequence CR LF and the single character LF; a lone CR
is not a separator. -/
def splitCRLF : List Char → List (List Char)
  | [] => [[]]
  | '\r' :: '\n' :: rest => [] :: splitCRLF rest
  | '\n' :: rest => [] :: splitCRLF rest
  | c :: rest => consHead c (splitCRLF rest)

/-- Worker for `wsSplit`; the flag records whether the scan is inside a
whitespace run (each maximal run contributes one boundary). -/
def wsSplitAux : Bool → List Char → List (List Char)
  | _, [] => [[]]
  | inWs, c :: rest =>
    if jsWhitespace c then
      if inWs then wsSplitAux true rest
      else [] :: wsSplitAux true rest
    else consHead c (wsSplitAux false rest)

/-- The JavaScript `s.split(/\s+/)`: chunks between maximal whitespace runs,
keeping the empty leading or trailing chunk exactly as the host does. -/
def wsSplit (l : List Char) : List (List Char) :=
  wsSplitAux false l

/-- Worker for the regex replacement `/\s+/g → " "`: the flag records
whether the previous character was whitespace (and was already replaced). -/
def collapseWsAux : Bool → List Char → List Char
  | _, [] => []
  | prevWs, c :: rest =>
    if jsWhitespace c then
      if prevWs then collapseWsAux true rest
      else ' ' :: collapseWsAux true rest
    else c :: collapseWsAux false rest

/-- The regex replacement `replace(/\s+/g, " ")`: every maximal run of
whitespace becomes a single space. -/
def collapseWs (l : List Char) : List Char :=
  collapseWsAux false l

/-- The regex replacement `replace(/\r\n|\r/g, "\n")` (leftmost-first
alternation, exactly as the host regex engine applies it). -/
def normalizeNewlines : List Char → List Char
  | [] => []
  | '\r' :: '\n' :: rest => '\n' :: normalizeNewlines rest
  | '\r' :: rest => '\n' :: normalizeNewlines rest
  | c :: rest => c :: normalizeNewlines rest

/-! ## Facts (analysis/facts.ts) -/

namespace Analysis

/-- The function `normalizeText` from `analysis/facts.ts`: trim, normalize
line endings, collapse whitespace runs to a single space, lowercase — in
exactly that order. -/
def normalizeText (value : String) : String :=
  ⟨(collapseWs (normalizeNewlines (jsTrimList value.data))).map Char.toLower⟩

/-- Digits-only parse of a character run; `none` when empty or any
non-digit occurs. -/
def digitsToNat? (l : List Char) : Option Nat :=
  if l ≠ [] && l.all Char.isDigit then
    some (l.foldl (fun a c => a * 10 + (c.toNat - 48)) 0)
  else none

/-- Models the JavaScript `Number(string)` primitive on the fragment this
code path exercises: the empty string parses to `0` (as in the host), an
optionally signed run of decimal digits parses to the corresponding
integer, and everything else (including fractions, exponents and hex) is
treated as `NaN` and answered with `none`. -/
def jsNumberInt? (l : List Char) : Option Int :=
  match l with
  | [] => some 0
  | '+' :: ds => (digitsToNat? ds).map Int.ofNat
  | '-' :: ds => (digitsToNat? ds).map (fun n => -(n : Int))
  | ds => (digitsToNat? ds).map Int.ofNat

/-- The function `canonicalizeValue` from `analysis/facts.ts`: trim, strip
commas and whitespace, and if the result parses as a number return its
decimal string; otherwise lowercase a `true`/`false` literal; otherwise
fall back to `normalizeText`. -/
def canonicalizeValue (value : String) : String :=
  let trimmed := jsTrim value
  let stripped : List Char := trimmed.data.filter fun c => !(c = ',' || jsWhitespace c)
  match jsNumberInt? stripped with
  | some n => toString n
  | none =>
    if jsToLower trimmed = "true" || jsToLower trimmed = "false" then jsToLower trimmed
    else normalizeText trimmed

/-- The function `computeFactKey` from `analysis/facts.ts`. -/
def computeFactKey (subject predicate : String) : String :=
  normalizeText subject ++ "::" ++ normalizeText predicate

/-- Models the SHA-1 hex digest used by `createFact`.  The digest is a
deterministic pure function of its preimage, and the only property of it
used in this development is that equal preimages give equal digests; the
model therefore takes the preimage itself as the digest value. -/
def sha1Hex (preimage : String) : String :=
  preimage

/-- The `Fact` record from `analysis/facts.ts`. -/
structure Fact where
  subject : String
  predicate : String
  object : String
  file : String
  heading : Option String := none
  lineStart : Option Nat := none
  lineEnd : Option Nat := none
  normalized : String
  hash : String
deriving DecidableEq, Repr

/-- Input record of `createFact`. -/
structure FactParams where
  subject : String
  predicate : String
  object : String
  file : String
  heading : Option String := none
  lineStart : Option Nat := none
  lineEnd : Option Nat := none
deriving DecidableEq, Repr

/-- The function `createFact` from `analysis/facts.ts`. -/
def createFact (params : FactParams) : Fact :=
  let normalized :=
    normalizeText params.subject ++ "|" ++ normalizeText params.predicate ++ "|" ++
      canonicalizeValue params.object
  { subject := jsTrim params.subject
    predicate := jsTrim params.predicate
    object := jsTrim params.object
    file := params.file
    heading := params.heading
    lineStart := params.lineStart
    lineEnd := params.lineEnd
    normalized := normalized
    hash := sha1Hex normalized }

end Analysis

/-! ## Fact extractor (analysis/fact-extractor.ts) -/

namespace Analysis

/-- Character class of the subject/separator exclusions in the fact-line
regex of `extractFactsFromMarkdown`. -/
def sepClass (c : Char) : Bool :=
  c = ':' || c = '#' || c = '=' || c = '-'

/-- Matching of the anchored fact-line regex
`^(?<subject>[^:#=\-\n][^:#=\-]{0,200})\s*(?::|\-|=)\s*(?<object>.+)$`
against one (already trimmed) line.  Because the subject class and the
whitespace absorbed by `\s*` both exclude every separator character, the
separator of any successful match is necessarily the first occurrence of a
character of `sepClass`; a match exists iff that first occurrence is one of
`:`, `-`, `=` (not `#`), the subject run fits the 201-character bound up to
trailing whitespace, and at least one character follows the separator.  The
returned runs are untrimmed; the caller trims both, which erases the
remaining ambiguity in how the regex splits the whitespace. -/
def factLineMatch (cs : List Char) : Option (List Char × List Char) :=
  match cs with
  | [] => none
  | c0 :: _ =>
    if sepClass c0 || c0 = '\n' then none
    else
      match cs.findIdx? sepClass with
      | none => none
      | some i =>
        if cs.getD i ' ' = '#' then none
        else if decide (i ≤ 201) || ((cs.drop 201).take (i - 201)).all jsWhitespace then
          let obj := cs.drop (i + 1)
          if obj.isEmpty then none else some (cs.take i, obj)
        else none

/-- The function `extractFactsFromMarkdown` from
`analysis/fact-extractor.ts`: scan line by line, skip blank lines, heading
lines and comment lines, and build a fact from every line matching the
subject/separator/object pattern. -/
def extractFactsFromMarkdown (content : String) (file : String)
    (heading : Option String := none) (lineOffset : Nat := 1) : List Fact :=
  (splitCRLF content.data).enum.filterMap fun p =>
    let line := jsTrimList p.2
    if line.isEmpty then none
    else if ['#'].isPrefixOf line then none
    else if ['<', '!', '-', '-'].isPrefixOf line then none
    else
      match factLineMatch line with
      | none => none
      | some (subjRun, objRun) =>
        let subject : String := ⟨jsTrimList subjRun⟩
        let object : String := ⟨jsTrimList objRun⟩
        if subject = "" || object = "" then none
        else
          some (createFact
            { subject, predicate := "is", object, file, heading,
              lineStart := some (lineOffset + p.1), lineEnd := some (lineOffset + p.1) })

/-- One line of the unified-diff prefix stripping in `extractFactsFromDiff`:
a leading `+` or space is dropped, everything else (in particular a leading
`-`) is kept. -/
def stripDiffPrefix (l : List Char) : List Char :=
  match l with
  | '+' :: rest => rest
  | ' ' :: rest => rest
  | _ => l

/-- The function `extractFactsFromDiff` from `analysis/fact-extractor.ts`. -/
def extractFactsFromDiff (diffContent : String) (file : String) : List Fact :=
  let cleaned := (splitCRLF diffContent.data).map stripDiffPrefix
  extractFactsFromMarkdown ⟨List.intercalate ['\n'] cleaned⟩ file

end Analysis

/-! ## Fact index (analysis/fact-index.ts) -/

namespace Analysis

/-- Association-list get, modelling `Map.prototype.get`. -/
def alGet {β : Type} (l : List (String × β)) (k : String) : Option β :=
  (l.find? fun p => p.1 = k).map Prod.snd

/-- Association-list set, modelling `Map.prototype.set`: updating an
existing key keeps its position, a new key is appended (a JavaScript `Map`
iterates in insertion order). -/
def alSet {β : Type} (l : List (String × β)) (k : String) (v : β) : List (String × β) :=
  match l with
  | [] => [(k, v)]
  | (k', v') :: rest => if k' = k then (k, v) :: rest else (k', v') :: alSet rest k v

/-- The `FactIndexEntry` record from `analysis/fact-index.ts`. -/
structure FactIndexEntry where
  key : String
  values : List (String × List Fact)
deriving DecidableEq, Repr

/-- The `FactIndex` record from `analysis/fact-index.ts`. -/
structure FactIndex where
  byKey : List (String × FactIndexEntry)
deriving DecidableEq, Repr

/-- The empty fact index (`{ byKey: new Map() }`). -/
def emptyFactIndex : FactIndex :=
  ⟨[]⟩

/-- The function `insertFact` from `analysis/fact-index.ts`. -/
def insertFact (index : FactIndex) (fact : Fact) : FactIndex :=
  let key := computeFactKey fact.subject fact.predicate
  let entry := (alGet index.byKey key).getD { key := key, values := [] }
  let valueKey := canonicalizeValue fact.object
  let list := (alGet entry.values valueKey).getD []
  let entry' := { entry with values := alSet entry.values valueKey (list ++ [fact]) }
  ⟨alSet index.byKey key entry'⟩

/-- The `FactConflict` record from `analysis/facts.ts`. -/
structure FactConflict where
  existing : Fact
  conflicting : Fact
  reason : String
deriving DecidableEq, Repr

/-- The function `findConflicts` from `analysis/fact-index.ts`: for each
input fact, every existing fact stored under the same normalized key but a
different canonical object value yields a conflict record. -/
def findConflicts (index : FactIndex) (facts : List Fact) : List FactConflict :=
  facts.flatMap fun f =>
    let key := computeFactKey f.subject f.predicate
    match alGet index.byKey key with
    | none => []
    | some entry =>
      let valueKey := canonicalizeValue f.object
      entry.values.flatMap fun pv =>
        if pv.1 ≠ valueKey then
          pv.2.map fun existing =>
            { existing := existing, conflicting := f,
              reason := "Different value for " ++ f.subject ++ " " ++ f.predicate ++
                ": existing=" ++ existing.object ++ ", new=" ++ f.object }
        else []

end Analysis

/-! ## Lexical scorer (utils/semantic-search.ts) -/

namespace SemanticSearch

/-- The `DocSection` record from `utils/doc-parser.ts`.  The Lean keyword
clash forces the field name `sect` further below, but the record itself
keeps the source fields. -/
structure DocSection where
  file : String
  release : String
  docType : String
  service : Option String := none
  heading : String
  content : String
  lineStart : Nat
  lineEnd : Nat
deriving DecidableEq, Repr

/-- The `SearchResult` record from `utils/semantic-search.ts`; the field
`sect` models the source field named `section` (a reserved word in Lean). -/
structure SearchResult where
  sect : DocSection
  score : Nat
  matchReasons : List String
deriving DecidableEq, Repr

/-- Filter options of `semanticSearch`. -/
structure SearchOptions where
  release : Option String := none
  service : Option String := none
  docTypes : Option (List String) := none
  maxResults : Option Nat := none
deriving DecidableEq, Repr

/-- The fixed keyword list of `scoreSection`. -/
def keywords : List String :=
  ["implementation", "architecture", "flow", "diagram", "example",
   "interface", "contract", "specification"]

/-- One iteration of the term loop of `scoreSection`, acting on the state
`(score, termsInHeading, termsInContent)`: a term found in the heading adds
10 to the score, a term found in the content adds 5 more. -/
def termStep (headingLower contentLower : String) (acc : Nat × Nat × Nat) (term : String) :
    Nat × Nat × Nat :=
  let acc1 := if jsIncludes headingLower term then (acc.1 + 10, acc.2.1 + 1, acc.2.2) else acc
  if jsIncludes contentLower term then (acc1.1 + 5, acc1.2.1, acc1.2.2 + 1) else acc1

/-- The function `scoreSection` from `utils/semantic-search.ts`, with the
term loop folded over `(score, termsInHeading, termsInContent)`. -/
def scoreSection (sect : DocSection) (queryLower : String) (queryTerms : List String) :
    Nat × List String :=
  let headingLower := jsToLower sect.heading
  let contentLower := jsToLower sect.content
  let combinedLower := headingLower ++ " " ++ contentLower
  let p1 : Nat × List String :=
    if jsIncludes headingLower queryLower then (100, ["Exact match in heading"]) else (0, [])
  let p2 : Nat × List String :=
    if jsIncludes contentLower queryLower then (p1.1 + 50, p1.2 ++ ["Exact match in content"])
    else p1
  let st := queryTerms.foldl (termStep headingLower contentLower) (p2.1, 0, 0)
  let r3 := p2.2 ++
    (if 0 < st.2.1 then [toString st.2.1 ++ " term(s) in heading"] else []) ++
    (if 0 < st.2.2 then [toString st.2.2 ++ " term(s) in content"] else [])
  match keywords.find? (fun kw => jsIncludes queryLower kw && jsIncludes combinedLower kw) with
  | some kw => (st.1 + 15, r3 ++ ["Keyword match: " ++ kw])
  | none => (st.1, r3)

/-- The effective result bound: `options?.maxResults || 5` — both an absent
and a zero `maxResults` fall back to 5 under JavaScript truthiness. -/
def effectiveMaxResults (opts : SearchOptions) : Nat :=
  match opts.maxResults with
  | some n => if n = 0 then 5 else n
  | none => 5

/-- The three pre-filters of `semanticSearch` (empty strings and empty
lists are falsy in the source conditions and disable the filter). -/
def applyFilters (sections : List DocSection) (opts : SearchOptions) : List DocSection :=
  let f1 := match opts.release with
    | some r => if r = "" then sections else sections.filter fun s => s.release = r
    | none => sections
  let f2 := match opts.service with
    | some sv =>
      if sv = "" then f1
      else
        let svL := jsToLower sv
        f1.filter fun s => jsIncludes (jsToLower s.heading) svL || jsIncludes (jsToLower s.content) svL
    | none => f1
  match opts.docTypes with
  | some dts => if dts.isEmpty then f2 else f2.filter fun s => dts.contains s.docType
  | none => f2

/-- Query terms: lowercase, split on whitespace, keep terms longer than two
characters. -/
def queryTermsOf (queryLower : String) : List String :=
  ((wsSplit queryLower.data).map fun t => (⟨t⟩ : String)).filter fun t => 2 < t.length

/-- The scored (unsorted) result list built by `semanticSearch` before
sorting. -/
def scoredResults (sections : List DocSection) (query : String) (opts : SearchOptions) :
    List SearchResult :=
  let queryLower := jsToLower query
  let queryTerms := queryTermsOf queryLower
  (applyFilters sections opts).map fun s =>
    let p := scoreSection s queryLower queryTerms
    { sect := s, score := p.1, matchReasons := p.2 }

/-- Stable descending insertion by score; an element is inserted before the
first element whose score is not larger, so elements earlier in the input
stay first on ties. -/
def insertByScoreDesc (r : SearchResult) : List SearchResult → List SearchResult
  | [] => [r]
  | x :: xs => if r.score < x.score then x :: insertByScoreDesc r xs else r :: x :: xs

/-- Models `results.sort((a, b) => b.score - a.score)`: the ECMAScript sort
is stable, and with this comparator it orders by descending score keeping
source order on ties, which is exactly stable insertion sort. -/
def sortByScoreDesc (l : List SearchResult) : List SearchResult :=
  l.foldr insertByScoreDesc []

/-- The function `semanticSearch` from `utils/semantic-search.ts`. -/
def semanticSearch (sections : List DocSection) (query : String) (opts : SearchOptions) :
    List SearchResult :=
  ((sortByScoreDesc (scoredResults sections query opts)).take (effectiveMaxResults opts)).filter
    fun r => 0 < r.score

/-- Restatement of the scoring formula in the words of the specification:
100 for the full query in the heading, 50 for the full query in the
content, 10 per long query term in the heading, 5 per long query term in
the content, and one 15 bonus for the first fixed keyword present in both
the query and the heading or content.  This is the claim-side definition,
compared against the source-side `scoreSection`. -/
def specScore (query : String) (s : DocSection) : Nat :=
  let qL := jsToLower query
  let terms := queryTermsOf qL
  let hL := jsToLower s.heading
  let cL := jsToLower s.content
  (if jsIncludes hL qL then 100 else 0) +
  (if jsIncludes cL qL then 50 else 0) +
  10 * terms.countP (fun t => jsIncludes hL t) +
  5 * terms.countP (fun t => jsIncludes cL t) +
  (if (keywords.find? fun kw => jsIncludes qL kw && (jsIncludes hL kw || jsIncludes cL kw)).isSome
    then 15 else 0)

end SemanticSearch

/-! ### Lemmas about the stable sort and the scoring fold -/

namespace SemanticSearch

theorem mem_insertByScoreDesc {y r : SearchResult} {l : List SearchResult} :
    y ∈ insertByScoreDesc r l ↔ y = r ∨ y ∈ l := by
  induction l with
  | nil => simp [insertByScoreDesc]
  | cons x xs ih =>
    simp only [insertByScoreDesc]
    by_cases h : r.score < x.score
    · simp only [if_pos h, List.mem_cons, ih]
      tauto
    · simp only [if_neg h, List.mem_cons]

theorem pairwise_insertByScoreDesc {r : SearchResult} {l : List SearchResult}
    (hl : l.Pairwise fun a b => b.score ≤ a.score) :
    (insertByScoreDesc r l).Pairwise fun a b => b.score ≤ a.score := by
  induction l with
  | nil => simp [insertByScoreDesc]
  | cons x xs ih =>
    rcases List.pairwise_cons.mp hl with ⟨hx, hxs⟩
    simp only [insertByScoreDesc]
    by_cases h : r.score < x.score
    · rw [if_pos h]
      refine List.pairwise_cons.mpr ⟨?_, ih hxs⟩
      intro y hy
      rcases mem_insertByScoreDesc.mp hy with rfl | hy'
      · exact Nat.le_of_lt h
      · exact hx y hy'
    · rw [if_neg h]
      refine List.pairwise_cons.mpr ⟨?_, hl⟩
      intro y hy
      rcases List.mem_cons.mp hy with rfl | hy'
      · exact Nat.le_of_not_lt h
      · exact Nat.le_trans (hx y hy') (Nat.le_of_not_lt h)

theorem sortByScoreDesc_cons (x : SearchResult) (xs : List SearchResult) :
    sortByScoreDesc (x :: xs) = insertByScoreDesc x (sortByScoreDesc xs) :=
  rfl

theorem pairwise_sortByScoreDesc (l : List SearchResult) :
    (sortByScoreDesc l).Pairwise fun a b => b.score ≤ a.score := by
  induction l with
  | nil => simp [sortByScoreDesc]
  | cons x xs ih =>
    rw [sortByScoreDesc_cons]
    exact pairwise_insertByScoreDesc ih

theorem mem_sortByScoreDesc {y : SearchResult} {l : List SearchResult} :
    y ∈ sortByScoreDesc l ↔ y ∈ l := by
  induction l with
  | nil => simp [sortByScoreDesc]
  | cons x xs ih =>
    rw [sortByScoreDesc_cons, mem_insertByScoreDesc]
    simp [ih]

theorem filter_insertByScoreDesc (r : SearchResult) (l : List SearchResult) (c : Nat) :
    (insertByScoreDesc r l).filter (fun y => y.score == c) =
      if r.score = c then r :: l.filter (fun y => y.score == c)
      else l.filter (fun y => y.score == c) := by
  induction l with
  | nil =>
    by_cases h : r.score = c <;> simp [insertByScoreDesc, h]
  | cons x xs ih =>
    simp only [insertByScoreDesc]
    by_cases hr : r.score < x.score
    · rw [if_pos hr]
      by_cases hc : r.score = c
      · have hx : ¬(x.score = c) := by omega
        simp [List.filter_cons, hx, ih, hc]
      · simp [List.filter_cons, ih, hc]
    · rw [if_neg hr]
      by_cases hc : r.score = c <;> simp [List.filter_cons, hc]

theorem filter_sortByScoreDesc (l : List SearchResult) (c : Nat) :
    (sortByScoreDesc l).filter (fun y => y.score == c) = l.filter (fun y => y.score == c) := by
  induction l with
  | nil => rfl
  | cons x xs ih =>
    rw [sortByScoreDesc_cons, filter_insertByScoreDesc]
    by_cases hc : x.score = c
    · simp [List.filter_cons, hc, ih]
    · simp [List.filter_cons, hc, ih]

theorem termStep_foldl_score (hL cL : String) (terms : List String) (s0 h0 c0 : Nat) :
    (terms.foldl (termStep hL cL) (s0, h0, c0)).1 =
      s0 + 10 * terms.countP (fun t => jsIncludes hL t) +
        5 * terms.countP (fun t => jsIncludes cL t) := by
  induction terms generalizing s0 h0 c0 with
  | nil => simp
  | cons t ts ih =>
    simp only [List.foldl_cons, List.countP_cons, termStep]
    by_cases hh : jsIncludes hL t <;> by_cases hc : jsIncludes cL t <;>
      simp [hh, hc, ih] <;> omega

theorem prefix_of_prefix_append_cons {α : Type} {n a b : List α} {x : α}
    (h : n <+: a ++ x :: b) (hx : x ∉ n) : n <+: a := by
  induction n generalizing a with
  | nil => exact List.nil_prefix
  | cons y n' ih =>
    cases a with
    | nil =>
      rcases List.cons_prefix_cons.mp h with ⟨rfl, -⟩
      exact absurd (List.mem_cons_self _ _) hx
    | cons z a' =>
      rcases List.cons_prefix_cons.mp h with ⟨rfl, h'⟩
      exact List.cons_prefix_cons.mpr ⟨rfl, ih h' fun hm => hx (List.mem_cons_of_mem _ hm)⟩

theorem infix_append_cons_iff {α : Type} {n a b : List α} {x : α} (hx : x ∉ n) :
    n <:+: a ++ x :: b ↔ n <:+: a ∨ n <:+: b := by
  constructor
  · rintro ⟨s, t, e⟩
    induction s generalizing a with
    | nil =>
      left
      exact (prefix_of_prefix_append_cons ⟨t, by simpa using e⟩ hx).isInfix
    | cons c s' ih =>
      cases a with
      | nil =>
        right
        simp only [List.nil_append, List.cons_append] at e
        exact ⟨s', t, by injection e⟩
      | cons z a' =>
        simp only [List.cons_append] at e
        have e' : s' ++ n ++ t = a' ++ x :: b := by injection e
        rcases ih e' with h | h
        · exact Or.inl (List.infix_cons h)
        · exact Or.inr h
  · rintro (h | h)
    · exact h.trans ((List.prefix_append a (x :: b)).isInfix)
    · exact h.trans ⟨a ++ [x], [], by simp⟩

theorem find?_congr_mem {α : Type} {p q : α → Bool} {l : List α} (h : ∀ y ∈ l, p y = q y) :
    l.find? p = l.find? q := by
  induction l with
  | nil => rfl
  | cons y ys ih =>
    rw [List.find?_cons, List.find?_cons, h y (List.mem_cons_self y ys),
      ih fun z hz => h z (List.mem_cons_of_mem _ hz)]

theorem jsIncludes_append_space (h c kw : String) (hkw : ' ' ∉ kw.data) :
    jsIncludes (h ++ " " ++ c) kw = (jsIncludes h kw || jsIncludes c kw) := by
  rw [Bool.eq_iff_iff]
  simp only [jsIncludes, Bool.or_eq_true, inclAux_iff, String.data_append]
  simp only [List.append_assoc, List.singleton_append]
  exact infix_append_cons_iff hkw

end SemanticSearch

namespace SemanticSearch

theorem keywords_no_space : ∀ kw ∈ keywords, ' ' ∉ kw.data := by
  decide

theorem scoreSection_score_eq_specScore (query : String) (s : DocSection) :
    (scoreSection s (jsToLower query) (queryTermsOf (jsToLower query))).1 = specScore query s := by
  unfold scoreSection specScore
  simp only []
  rw [find?_congr_mem (p := fun kw =>
        jsIncludes (jsToLower query) kw &&
          jsIncludes (jsToLower s.heading ++ " " ++ jsToLower s.content) kw)
      (q := fun kw =>
        jsIncludes (jsToLower query) kw &&
          (jsIncludes (jsToLower s.heading) kw || jsIncludes (jsToLower s.content) kw))
      (fun kw hkw => by
        simp only []
        rw [jsIncludes_append_space _ _ _ (keywords_no_space kw hkw)])]
  rw [termStep_foldl_score]
  by_cases h1 : jsIncludes (jsToLower s.heading) (jsToLower query) <;>
    by_cases h2 : jsIncludes (jsToLower s.content) (jsToLower query) <;>
      cases hfind : keywords.find? fun kw =>
          jsIncludes (jsToLower query) kw &&
            (jsIncludes (jsToLower s.heading) kw || jsIncludes (jsToLower s.content) kw) <;>
        simp [h1, h2, hfind]

end SemanticSearch

namespace SemanticSearch

/-- Concrete corpus used to exercise the lexical scorer. -/
def sectionAuth : DocSection :=
  { file := "R1-A.md", release := "R1", docType := "A", heading := "Auth overview",
    content := "authentication flow and tokens", lineStart := 0, lineEnd := 1 }

/-- Second concrete section of the lexical-scorer corpus. -/
def sectionPay : DocSection :=
  { file := "R2-B.md", release := "R2", docType := "B", heading := "Payments",
    content := "handle invoices", lineStart := 0, lineEnd := 1 }

/-- The hit produced for `sectionAuth` by the query `authentication flow`. -/
def hitAuth : SearchResult :=
  { sect := sectionAuth, score := 75,
    matchReasons := ["Exact match in content", "2 term(s) in content", "Keyword match: flow"] }

/-- Claim C5, counterexample to the claim as stated: with `maxResults: 0`
the scorer does not return at most `0` sections — the JavaScript truthiness
fallback `options?.maxResults || 5` replaces `0` by `5`, and a section with
positive score is returned. -/
theorem semanticSearch_maxResults_zero_cx :
    ¬ ((semanticSearch [sectionAuth] "authentication flow" { maxResults := some 0 }).length ≤ 0) := by
  decide

/-- Claim C5 (amended): for every list of sections, query and options, the
lexical scorer returns at most `maxResults` sections (where an absent or
zero `maxResults` is treated as 5), all with score strictly greater than 0,
ordered by descending score with ties preserving source order (stated as:
for every score value, the hits carrying that score form a prefix of the
scored input hits carrying that score), and each returned hit scores
according to the specified sum: 100 for the full query in the heading, 50
for the full query in the content, 10 per long query term in the heading, 5
per long query term in the content, and a single 15 bonus for the first
fixed keyword present in both the query and the heading or content. -/
theorem semanticSearch_spec (sections : List DocSection) (query : String) (opts : SearchOptions) :
    (semanticSearch sections query opts).length ≤ effectiveMaxResults opts ∧
    (∀ r ∈ semanticSearch sections query opts, 0 < r.score) ∧
    ((semanticSearch sections query opts).Pairwise fun a b => b.score ≤ a.score) ∧
    (∀ r ∈ semanticSearch sections query opts, r.score = specScore query r.sect) ∧
    ∀ c : Nat, (semanticSearch sections query opts).filter (fun r => r.score == c) <+:
      (scoredResults sections query opts).filter fun r => r.score == c := by
  refine ⟨?_, ?_, ?_, ?_, ?_⟩
  · have h1 := List.length_filter_le (fun r : SearchResult => decide (0 < r.score))
      ((sortByScoreDesc (scoredResults sections query opts)).take (effectiveMaxResults opts))
    have h2 : ((sortByScoreDesc (scoredResults sections query opts)).take
        (effectiveMaxResults opts)).length ≤ effectiveMaxResults opts := by
      rw [List.length_take]
      exact Nat.min_le_left _ _
    exact Nat.le_trans h1 h2
  · intro r hr
    have := (List.mem_filter.mp hr).2
    simpa using this
  · exact List.Pairwise.sublist (List.filter_sublist _)
      (List.Pairwise.sublist (List.take_sublist _ _) (pairwise_sortByScoreDesc _))
  · intro r hr
    have hmem : r ∈ scoredResults sections query opts :=
      mem_sortByScoreDesc.mp (List.mem_of_mem_take (List.mem_filter.mp hr).1)
    unfold scoredResults at hmem
    rcases List.mem_map.mp hmem with ⟨s, _, rfl⟩
    exact scoreSection_score_eq_specScore query s
  · intro c
    show ((( sortByScoreDesc (scoredResults sections query opts)).take
        (effectiveMaxResults opts)).filter (fun r => decide (0 < r.score))).filter
          (fun r => r.score == c) <+: _
    rw [List.filter_filter]
    by_cases hc : c = 0
    · subst hc
      have : ((sortByScoreDesc (scoredResults sections query opts)).take
          (effectiveMaxResults opts)).filter
            (fun r => (r.score == 0) && decide (0 < r.score)) = [] := by
        apply List.filter_eq_nil_iff.mpr
        intro r _
        by_cases h : r.score = 0 <;> simp [h]
      rw [this]
      exact List.nil_prefix
    · have hcong : ((sortByScoreDesc (scoredResults sections query opts)).take
          (effectiveMaxResults opts)).filter (fun r => (r.score == c) && decide (0 < r.score)) =
          ((sortByScoreDesc (scoredResults sections query opts)).take
            (effectiveMaxResults opts)).filter (fun r => r.score == c) := by
        apply List.filter_congr
        intro r _
        by_cases h : r.score = c
        · simp [h, Nat.pos_of_ne_zero hc]
        · simp [h]
      rw [hcong]
      have hpre : ((sortByScoreDesc (scoredResults sections query opts)).take
          (effectiveMaxResults opts)).filter (fun r => r.score == c) <+:
          (sortByScoreDesc (scoredResults sections query opts)).filter (fun r => r.score == c) :=
        (List.take_prefix _ _).filter _
      rw [filter_sortByScoreDesc] at hpre
      exact hpre

/-- Claim C5 witness: the amended theorem applied to the concrete corpus
and the query `authentication flow`. -/
theorem semanticSearch_spec_witness :
    hitAuth ∈ semanticSearch [sectionAuth, sectionPay] "authentication flow" {} ∧
    0 < hitAuth.score ∧ hitAuth.score = specScore "authentication flow" hitAuth.sect :=
  ⟨by decide,
    (semanticSearch_spec [sectionAuth, sectionPay] "authentication flow" {}).2.1 hitAuth (by decide),
    (semanticSearch_spec [sectionAuth, sectionPay] "authentication flow" {}).2.2.2.1 hitAuth
      (by decide)⟩

end SemanticSearch

/-! ### Claims about fact hashing and diff extraction -/

namespace Analysis

/-- Claim C9: two facts receive the same hash whenever their subjects and
predicates agree up to `normalizeText` and their objects agree up to
`canonicalizeValue` — the hash is a digest of exactly
`normalize(subject)|normalize(predicate)|canonicalize(object)`. -/
theorem createFact_hash_congruent (f g : FactParams)
    (hs : normalizeText f.subject = normalizeText g.subject)
    (hp : normalizeText f.predicate = normalizeText g.predicate)
    (ho : canonicalizeValue f.object = canonicalizeValue g.object) :
    (createFact f).hash = (createFact g).hash := by
  simp [createFact, sha1Hex, hs, hp, ho]

/-- Claim C9 witness: concrete facts whose components differ in case,
spacing and thousands separators hash identically; the canonicalization of
`1,000` and `1 000` both land on the decimal form `1000`. -/
theorem createFact_hash_congruent_witness :
    normalizeText "Database  Port" = normalizeText "  DATABASE PORT " ∧
    normalizeText "is" = normalizeText " IS " ∧
    canonicalizeValue "1,000" = canonicalizeValue " 1 000" ∧
    canonicalizeValue "1,000" = "1000" ∧
    canonicalizeValue "TRUE" = "true" ∧
    (createFact { subject := "Database  Port", predicate := "is", object := "1,000",
                  file := "R1-CONFIG.md" }).hash =
      (createFact { subject := "  DATABASE PORT ", predicate := " IS ", object := " 1 000",
                    file := "R2-CONFIG.md" }).hash :=
  ⟨by decide, by decide, by decide, by decide, by decide,
    createFact_hash_congruent _ _ (by decide) (by decide) (by decide)⟩

/-- Claim C8, counterexample to the claim as stated: the diff payload made
of the line `+A: B` and the context line ` A: B` does not yield exactly one
fact — both cleaned lines match the fact pattern and extraction does not
deduplicate within a payload. -/
theorem extractFactsFromDiff_payload_cx :
    ¬ ((extractFactsFromDiff "+A: B\n A: B" "f.md").length = 1) := by
  decide

/-- Claim C8 (amended): `extractFactsFromDiff` strips the leading `+` or
space from each line and never strips `-` lines, and the payload of one
`+A: B` line and one ` A: B` context line yields exactly two facts, both
reading `A is B` (duplicates within a payload are kept; they dedupe later
in the index). -/
theorem extractFactsFromDiff_strips_and_two_facts :
    (∀ l : List Char, stripDiffPrefix ('+' :: l) = l) ∧
    (∀ l : List Char, stripDiffPrefix (' ' :: l) = l) ∧
    (∀ l : List Char, stripDiffPrefix ('-' :: l) = '-' :: l) ∧
    (extractFactsFromDiff "+A: B\n A: B" "f.md").length = 2 ∧
    (extractFactsFromDiff "+A: B\n A: B" "f.md").map (fun f => (f.subject, f.object)) =
      [("A", "B"), ("A", "B")] :=
  ⟨fun _ => rfl, fun _ => rfl, fun _ => rfl, by decide, by decide⟩

end Analysis

namespace Analysis

/-- Claim C8 witness: the amended theorem instantiated at a concrete line
body. -/
theorem extractFactsFromDiff_strips_witness :
    stripDiffPrefix ('+' :: ['X']) = ['X'] ∧
    stripDiffPrefix (' ' :: ['X']) = ['X'] ∧
    stripDiffPrefix ('-' :: ['X']) = '-' :: ['X'] :=
  ⟨extractFactsFromDiff_strips_and_two_facts.1 ['X'],
    extractFactsFromDiff_strips_and_two_facts.2.1 ['X'],
    extractFactsFromDiff_strips_and_two_facts.2.2.1 ['X']⟩

end Analysis

/-! ## Markdown section parser (utils/doc-parser.ts) -/

namespace DocParser

open SemanticSearch (DocSection)

/-- Matching of the heading regex `^(#{1,6})\s+(.+)$` against one line,
returning the captured heading text.  The hash run must have length one to
six and be followed by at least one whitespace character; `.` does not
match the line terminators `\n` and `\r`, so the capture — the rest of the
line after the greedy whitespace run, or the last whitespace character when
nothing else follows — must be free of them for the anchors to meet. -/
def headingMatch (cs : List Char) : Option (List Char) :=
  let hashes := cs.takeWhile fun c => c = '#'
  let rest := cs.drop hashes.length
  if hashes.length = 0 || 6 < hashes.length then none
  else
    match rest with
    | [] => none
    | c :: _ =>
      if jsWhitespace c then
        let t := rest.dropWhile jsWhitespace
        if t.isEmpty then
          if 2 ≤ rest.length && !(rest.getLastD ' ' = '\r') then some [rest.getLastD ' ']
          else none
        else if t.contains '\r' then none
        else some t
      else none

/-- Does this line start a section? -/
def isHeadingLine (cs : List Char) : Bool :=
  (headingMatch cs).isSome

/-- Matching of the filename regex `^(R\d+)-(.+)\.md$`, returning the
captured release and docType.  The greedy `(.+)` with the end anchor makes
the docType everything up to the final `.md`; `.` matches no line
terminator, so names containing one never match. -/
def parseDocFilename (name : List Char) : Option (String × String) :=
  if name.contains '\r' || name.contains '\n' then none
  else
    match name with
    | 'R' :: rest =>
      let ds := rest.takeWhile Char.isDigit
      let rest2 := rest.drop ds.length
      if ds.isEmpty then none
      else
        match rest2 with
        | '-' :: core =>
          if core.length < 4 then none
          else if core.drop (core.length - 3) = ['.', 'm', 'd'] then
            some (⟨'R' :: ds⟩, ⟨core.take (core.length - 3)⟩)
          else none
        | _ => none
    | _ => none

/-- Join accumulated content lines with newlines (`currentContent.join("\n")`). -/
def joinNL (ls : List (List Char)) : List Char :=
  List.intercalate ['\n'] ls

/-- Build one `DocSection` the way `parseDocFile` pushes it: the content is
the newline join of the accumulated lines, trimmed. -/
def mkSection (file release docType : String) (heading : List Char)
    (content : List (List Char)) (lineStart lineEnd : Nat) : DocSection :=
  { file := file, release := release, docType := docType, heading := ⟨heading⟩,
    content := ⟨jsTrimList (joinNL content)⟩, lineStart := lineStart, lineEnd := lineEnd }

/-- The line loop of `parseDocFile`.  The state mirrors the source locals:
`curH` is `currentHeading` (`none` models the falsy empty-string sentinel;
every captured heading is nonempty), `curC` is `currentContent`, `curLS`
is `currentLineStart`, and `i` counts the lines already consumed, so the
first list argument is always the remaining lines.  A section is pushed
only when a heading is pending and at least one line of content
accumulated, exactly as in the source. -/
def parseLoop (file release docType : String) :
    List (List Char) → Nat → Option (List Char) → List (List Char) → Nat → List DocSection
  | [], i, curH, curC, curLS =>
    match curH with
    | some h => if curC.isEmpty then [] else [mkSection file release docType h curC curLS (i - 1)]
    | none => []
  | line :: rest, i, curH, curC, curLS =>
    match headingMatch line with
    | some h =>
      let tail := parseLoop file release docType rest (i + 1) (some h) [] i
      match curH with
      | some h0 =>
        if curC.isEmpty then tail
        else mkSection file release docType h0 curC curLS (i - 1) :: tail
      | none => tail
    | none =>
      match curH with
      | some _ => parseLoop file release docType rest (i + 1) curH (curC ++ [line]) curLS
      | none => parseLoop file release docType rest (i + 1) curH curC curLS

/-- The function `parseDocFile` from `utils/doc-parser.ts`, taking the
basename of the file (the source computes it with `basename`) and the file
content: files whose names do not match `R<digits>-<docType>.md` yield no
sections; otherwise the content splits on `"\n"` and the heading loop runs. -/
def parseDocFile (file : String) (content : String) : List DocSection :=
  match parseDocFilename file.data with
  | none => []
  | some rd =>
    parseLoop file rd.1 rd.2 (splitNL content.data) 0 none [] 0

/-- The line list a file content parses over. -/
def linesOf (content : String) : List (List Char) :=
  splitNL content.data

end DocParser

namespace DocParser

open SemanticSearch (DocSection)

theorem drop_cons_facts {α : Type} {l : List α} {i : Nat} {x : α} {r : List α} (d : α)
    (h : l.drop i = x :: r) :
    l.getD i d = x ∧ l.drop (i + 1) = r ∧ i < l.length := by
  refine ⟨?_, ?_, ?_⟩
  · rw [List.getD_eq_getElem?_getD]
    have h0 : l[i]? = (l.drop i)[0]? := by simp [List.getElem?_drop]
    rw [h0, h]
    simp
  · have h1 : l.drop (i + 1) = (l.drop i).drop 1 := by rw [List.drop_drop]
    rw [h1, h]
    rfl
  · by_contra hle
    rw [List.drop_eq_nil_iff.mpr (Nat.le_of_not_lt hle)] at h
    exact List.noConfusion h

theorem parseLoop_spec (file release docType : String) (lines : List (List Char)) :
    ∀ (rest : List (List Char)) (i : Nat) (curH : Option (List Char))
      (curC : List (List Char)) (curLS : Nat),
    rest = lines.drop i → i ≤ lines.length →
    (∀ h, curH = some h →
      curLS < i ∧ isHeadingLine (lines.getD curLS []) = true ∧
      (∀ j, curLS < j → j < i → isHeadingLine (lines.getD j []) = false) ∧
      curC.length = i - curLS - 1) →
    (parseLoop file release docType rest i curH curC curLS).Pairwise
      (fun a b => a.lineEnd < b.lineStart) ∧
    ∀ s ∈ parseLoop file release docType rest i curH curC curLS,
      (s.lineStart = curLS ∨ i ≤ s.lineStart) ∧
      s.lineStart < s.lineEnd ∧ s.lineEnd < lines.length ∧
      isHeadingLine (lines.getD s.lineStart []) = true ∧
      (∀ j, s.lineStart < j → j ≤ s.lineEnd → isHeadingLine (lines.getD j []) = false) ∧
      (s.lineEnd + 1 = lines.length ∨ isHeadingLine (lines.getD (s.lineEnd + 1) []) = true) := by
  intro rest
  induction rest with
  | nil =>
    intro i curH curC curLS hrest hi hinv
    have hlen : lines.length ≤ i := List.drop_eq_nil_iff.mp hrest.symm
    have hieq : i = lines.length := Nat.le_antisymm hi hlen
    cases curH with
    | none => simp [parseLoop]
    | some h =>
      rcases hinv h rfl with ⟨hls, hhd, hmid, hclen⟩
      by_cases hc : curC.isEmpty
      · simp [parseLoop, hc]
      · rw [parseLoop]
        simp only [hc, if_neg, Bool.false_eq_true, not_false_iff]
        have hclen' : 1 ≤ curC.length := by
          cases curC with
          | nil => simp at hc
          | cons a b => simp
        have hgap : curLS + 2 ≤ i := by omega
        constructor
        · simp
        · intro s hs
          rw [List.mem_singleton] at hs
          subst hs
          refine ⟨Or.inl rfl, ?_, ?_, ?_, ?_, ?_⟩
          · show curLS < i - 1
            omega
          · show i - 1 < lines.length
            omega
          · exact hhd
          · intro j hj1 hj2
            have hj1' : curLS < j := hj1
            have hj2' : j ≤ i - 1 := hj2
            exact hmid j hj1' (by omega)
          · left
            show i - 1 + 1 = lines.length
            omega
  | cons line rest' ih =>
    intro i curH curC curLS hrest hi hinv
    rcases drop_cons_facts [] hrest.symm with ⟨hline, hdrop, hilt⟩
    cases hmatch : headingMatch line with
    | some h =>
      have hheadline : isHeadingLine (lines.getD i []) = true := by
        rw [hline, isHeadingLine, hmatch]
        rfl
      have hihtail := ih (i + 1) (some h) [] i hdrop.symm hilt
        (by
          intro h' hh'
          injection hh' with hh'
          subst hh'
          exact ⟨Nat.lt_succ_self i, hheadline, fun j hj1 hj2 => by omega, by simp⟩)
      rcases hihtail with ⟨htailpw, htail⟩
      cases curH with
      | none =>
        rw [parseLoop, hmatch]
        simp only []
        refine ⟨htailpw, ?_⟩
        intro s hs
        rcases htail s hs with ⟨hloc, hrest⟩
        refine ⟨?_, hrest⟩
        right
        rcases hloc with hloc | hloc
        · omega
        · omega
      | some h0 =>
        rcases hinv h0 rfl with ⟨hls, hhd, hmid, hclen⟩
        by_cases hc : curC.isEmpty
        · rw [parseLoop, hmatch]
          simp only [hc, if_pos]
          refine ⟨htailpw, ?_⟩
          intro s hs
          rcases htail s hs with ⟨hloc, hrest⟩
          exact ⟨Or.inr (by omega), hrest⟩
        · rw [parseLoop, hmatch]
          simp only [hc, if_neg, Bool.false_eq_true, not_false_iff]
          have hclen' : 1 ≤ curC.length := by
            cases curC with
            | nil => simp at hc
            | cons a b => simp
          have hgap : curLS + 2 ≤ i := by omega
          constructor
          · rw [List.pairwise_cons]
            refine ⟨?_, htailpw⟩
            intro s hs
            rcases htail s hs with ⟨hloc, -⟩
            show i - 1 < s.lineStart
            omega
          · intro s hs
            rcases List.mem_cons.mp hs with hs | hs
            · subst hs
              refine ⟨Or.inl rfl, ?_, ?_, ?_, ?_, ?_⟩
              · show curLS < i - 1
                omega
              · show i - 1 < lines.length
                omega
              · exact hhd
              · intro j hj1 hj2
                have hj1' : curLS < j := hj1
                have hj2' : j ≤ i - 1 := hj2
                exact hmid j hj1' (by omega)
              · right
                show isHeadingLine (lines.getD (i - 1 + 1) []) = true
                have : i - 1 + 1 = i := by omega
                rw [this]
                exact hheadline
            · rcases htail s hs with ⟨hloc, hrest⟩
              exact ⟨Or.inr (by omega), hrest⟩
    | none =>
      have hnothead : isHeadingLine (lines.getD i []) = false := by
        rw [hline, isHeadingLine, hmatch]
        rfl
      cases curH with
      | none =>
        rw [parseLoop, hmatch]
        simp only []
        have hihres := ih (i + 1) none curC curLS hdrop.symm hilt
          (by intro h' hh'; exact absurd hh' (by simp))
        rcases hihres with ⟨hpw, hmem⟩
        refine ⟨hpw, ?_⟩
        intro s hs
        rcases hmem s hs with ⟨hloc, hrest⟩
        refine ⟨?_, hrest⟩
        rcases hloc with hloc | hloc
        · exact Or.inl hloc
        · exact Or.inr (by omega)
      | some h0 =>
        rw [parseLoop, hmatch]
        simp only []
        rcases hinv h0 rfl with ⟨hls, hhd, hmid, hclen⟩
        have hihres := ih (i + 1) (some h0) (curC ++ [line]) curLS hdrop.symm hilt
          (by
            intro h' hh'
            injection hh' with hh'
            subst hh'
            refine ⟨by omega, hhd, ?_, ?_⟩
            · intro j hj1 hj2
              by_cases hji : j = i
              · subst hji
                exact hnothead
              · exact hmid j hj1 (by omega)
            · simp [hclen]
              omega)
        rcases hihres with ⟨hpw, hmem⟩
        refine ⟨hpw, ?_⟩
        intro s hs
        rcases hmem s hs with ⟨hloc, hrest⟩
        refine ⟨?_, hrest⟩
        rcases hloc with hloc | hloc
        · exact Or.inl hloc
        · exact Or.inr (by omega)

end DocParser

namespace DocParser

open SemanticSearch (DocSection)

/-- Claim C4, counterexample to the claim as stated: in the file body
`# A\n# B\nx` the line 0 heading `# A` is immediately followed by another
heading, so it starts no section at all — `parseDocFile` only pushes a
section once at least one content line accumulated, so not every heading
line starts a section and the ranges do not cover line 0. -/
theorem parseDocFile_heading_without_section_cx :
    isHeadingLine ((linesOf "# A\n# B\nx").getD 0 []) = true ∧
    ∀ s ∈ parseDocFile "R1-T.md" "# A\n# B\nx", s.lineStart ≠ 0 := by
  decide

/-- Claim C4 (amended): for every parsed file the returned sections carry
disjoint, source-ordered line ranges; each section begins at a heading line,
contains no further heading line, and extends exactly up to (exclusive of)
the next heading line or the end of the file.  A heading immediately
followed by another heading or by the end of the file accumulates no
content and yields no section, so its line is covered by no range (the
ranges are a partition of the covered region only). -/
theorem parseDocFile_partition_spec (file content : String) :
    (parseDocFile file content).Pairwise (fun a b => a.lineEnd < b.lineStart) ∧
    ∀ s ∈ parseDocFile file content,
      s.lineStart < s.lineEnd ∧ s.lineEnd < (linesOf content).length ∧
      isHeadingLine ((linesOf content).getD s.lineStart []) = true ∧
      (∀ j, s.lineStart < j → j ≤ s.lineEnd →
        isHeadingLine ((linesOf content).getD j []) = false) ∧
      (s.lineEnd + 1 = (linesOf content).length ∨
        isHeadingLine ((linesOf content).getD (s.lineEnd + 1) []) = true) := by
  unfold parseDocFile
  cases hpf : parseDocFilename file.data with
  | none => simp
  | some rd =>
    have h := parseLoop_spec file rd.1 rd.2 (linesOf content) (linesOf content) 0 none [] 0
      (by simp [linesOf]) (Nat.zero_le _) (by intro h hh; exact absurd hh (by simp))
    rcases h with ⟨hpw, hmem⟩
    refine ⟨hpw, ?_⟩
    intro s hs
    rcases hmem s hs with ⟨-, hrest⟩
    exact hrest

/-- The single section parsed from the corpus `{R1-A.md: "# H\nX"}`. -/
def sectionH : DocSection :=
  { file := "R1-A.md", release := "R1", docType := "A", heading := "H", content := "X",
    lineStart := 0, lineEnd := 1 }

/-- Claim C4 witness: the amended theorem applied to the one-file corpus of
the end-to-end scenario. -/
theorem parseDocFile_partition_spec_witness :
    sectionH ∈ parseDocFile "R1-A.md" "# H\nX" ∧
    sectionH.lineStart < sectionH.lineEnd ∧
    (sectionH.lineEnd + 1 = (linesOf "# H\nX").length ∨
      isHeadingLine ((linesOf "# H\nX").getD (sectionH.lineEnd + 1) []) = true) :=
  ⟨by decide,
    ((parseDocFile_partition_spec "R1-A.md" "# H\nX").2 sectionH (by decide)).1,
    ((parseDocFile_partition_spec "R1-A.md" "# H\nX").2 sectionH (by decide)).2.2.2.2⟩

end DocParser

/-! ## Document update agent (rag/doc-update.ts, preflight variant) -/

namespace DocUpdate

open Analysis

/-- The `action` field of a suggestion. -/
inductive UpdateAction
  | update
  | create
deriving DecidableEq, Repr

/-- The `DocUpdateSuggestion` record.  The advisory `duplicates`,
`conflicts` and `blocked` annotations attached by `suggestUpdate` are not
read by `applyUpdate` (which re-derives the conflicts from the diff), so
they are not part of the model. -/
structure DocUpdateSuggestion where
  action : UpdateAction
  targetPath : String
  diff : String
  rationale : String := ""
  citations : List String := []
deriving DecidableEq, Repr

/-- The `status` field of an update result. -/
inductive ResultStatus
  | success
  | error
deriving DecidableEq, Repr

/-- The `DocUpdateResult` record. -/
structure DocUpdateResult where
  status : ResultStatus
  path : String
  reindexed : Bool
  error : Option String := none
deriving DecidableEq, Repr

/-- File-system operations the agent can perform on file contents.  The
model records a trace of them; `rename` is included so that the presence or
absence of the write-temp-then-rename pattern is observable. -/
inductive FsOp
  | write (path content : String)
  | rename (src dst : String)
deriving DecidableEq, Repr

/-- Is this operation a rename? -/
def isRename : FsOp → Bool
  | .rename _ _ => true
  | .write _ _ => false

/-- State visible to the update agent: the file system (an association
list from path to content), the two per-root cache presence flags, and the
fact index `getFactIndex(docsPath)` answers with. -/
structure AgentState where
  fs : List (String × String)
  docIndexCached : Bool
  factIndexCached : Bool
  factIndex : FactIndex
deriving DecidableEq, Repr

/-- The method `DocUpdateAgent.applyUpdate`: preflight re-extracts facts
from the diff and blocks on conflicts unless forced; a `create` writes the
diff as the whole file, an `update` appends `"\n" + diff` to the existing
content; on success both caches are invalidated.  Modelling notes:
`getFactIndex` is the `factIndex` state component; `writeFileSync` is a
direct whole-content write recorded in the trace; `mkdirSync` is elided
(it does not touch file contents); the `readFileSync` exception on a
missing target surfaces through the catch-all as an error result whose
message summarises the host ENOENT error; event emissions are elided. -/
def applyUpdate (st : AgentState) (sugg : DocUpdateSuggestion) (force : Bool) :
    DocUpdateResult × AgentState × List FsOp :=
  let proposedFacts := extractFactsFromDiff sugg.diff sugg.targetPath
  let conflicts := findConflicts st.factIndex proposedFacts
  if 0 < conflicts.length ∧ ¬force then
    ({ status := .error, path := sugg.targetPath, reindexed := false,
       error := some ("Conflicting facts detected (" ++ toString conflicts.length ++
         "). Use force=true to override.") }, st, [])
  else
    match sugg.action with
    | .create =>
      ({ status := .success, path := sugg.targetPath, reindexed := true },
       { st with fs := alSet st.fs sugg.targetPath sugg.diff,
                 docIndexCached := false, factIndexCached := false },
       [FsOp.write sugg.targetPath sugg.diff])
    | .update =>
      match alGet st.fs sugg.targetPath with
      | none =>
        ({ status := .error, path := sugg.targetPath, reindexed := false,
           error := some "ENOENT: no such file or directory" }, st, [])
      | some existing =>
        ({ status := .success, path := sugg.targetPath, reindexed := true },
         { st with fs := alSet st.fs sugg.targetPath (existing ++ "\n" ++ sugg.diff),
                   docIndexCached := false, factIndexCached := false },
         [FsOp.write sugg.targetPath (existing ++ "\n" ++ sugg.diff)])

/-- Claim C1: when the diff's extracted facts conflict with the fact index
(same normalized subject::predicate key, different canonical object) and
force is not set, `applyUpdate` returns the error result carrying the exact
conflict-count message, leaves the state untouched and performs no file
operation; with force set the write proceeds (for a `create`, or an
`update` whose target exists). -/
theorem applyUpdate_conflicts_block (st : AgentState) (sugg : DocUpdateSuggestion) (n : Nat)
    (hn : (findConflicts st.factIndex (extractFactsFromDiff sugg.diff sugg.targetPath)).length = n)
    (hpos : 0 < n) :
    applyUpdate st sugg false =
      ({ status := .error, path := sugg.targetPath, reindexed := false,
         error := some ("Conflicting facts detected (" ++ toString n ++
           "). Use force=true to override.") }, st, []) ∧
    (sugg.action = .create ∨ (alGet st.fs sugg.targetPath).isSome = true →
      (applyUpdate st sugg true).1.status = .success ∧
      ∃ c, (applyUpdate st sugg true).2.2 = [FsOp.write sugg.targetPath c]) := by
  constructor
  · unfold applyUpdate
    rw [if_pos ⟨by rw [hn]; exact hpos, by simp⟩]
    rw [hn]
  · intro hw
    unfold applyUpdate
    rw [if_neg (by simp)]
    cases hact : sugg.action with
    | create => exact ⟨rfl, sugg.diff, rfl⟩
    | update =>
      rcases hw with hw | hw
      · rw [hact] at hw
        exact absurd hw (by simp)
      · rcases Option.isSome_iff_exists.mp hw with ⟨existing, hex⟩
        rw [hex]
        exact ⟨rfl, existing ++ "\n" ++ sugg.diff, rfl⟩

/-- Fact present in the witness corpus: `Database: PostgreSQL`. -/
def corpusFact : Fact :=
  createFact { subject := "Database", predicate := "is", object := "PostgreSQL",
               file := "R1-CONFIG.md", heading := some "Config",
               lineStart := some 2, lineEnd := some 2 }

/-- Fact index of the witness corpus. -/
def witnessIndex : FactIndex :=
  insertFact emptyFactIndex corpusFact

/-- Agent state of the witness scenario. -/
def witnessState : AgentState :=
  { fs := [("docs/R1-CONFIG.md", "# Config\nDatabase: PostgreSQL")],
    docIndexCached := true, factIndexCached := true, factIndex := witnessIndex }

/-- Suggestion whose diff proposes the conflicting `Database: MySQL`. -/
def witnessSugg : DocUpdateSuggestion :=
  { action := .create, targetPath := "docs/R2-CONFIG.md",
    diff := "# DB\n\nDatabase: MySQL\n" }

/-- Claim C1 witness: the blocking theorem applied to the concrete corpus
with one conflicting fact. -/
theorem applyUpdate_conflicts_block_witness :
    (findConflicts witnessState.factIndex
      (extractFactsFromDiff witnessSugg.diff witnessSugg.targetPath)).length = 1 ∧
    applyUpdate witnessState witnessSugg false =
      ({ status := .error, path := witnessSugg.targetPath, reindexed := false,
         error := some "Conflicting facts detected (1). Use force=true to override." },
       witnessState, []) ∧
    (applyUpdate witnessState witnessSugg true).1.status = .success :=
  ⟨by decide,
    (applyUpdate_conflicts_block witnessState witnessSugg 1 (by decide) (by decide)).1,
    ((applyUpdate_conflicts_block witnessState witnessSugg 1 (by decide) (by decide)).2
      (Or.inl rfl)).1⟩

/-- State for the write-trace observation: empty corpus, empty fact index. -/
def writeState : AgentState :=
  { fs := [], docIndexCached := true, factIndexCached := true, factIndex := emptyFactIndex }

/-- A plain create suggestion with no conflicting facts. -/
def writeSugg : DocUpdateSuggestion :=
  { action := .create, targetPath := "docs/R1-NOTES.md", diff := "# Title\n\nBody\n" }

/-- Claim C2: evaluating `applyUpdate` at a concrete suggestion shows the
write path of the code: a single direct whole-content `writeFileSync` to
the target — no sibling temp file is ever written and no rename is
performed, contradicting the specified write-temp-then-rename atomicity
protocol (the repository's own implementation summary also advertises
"Atomic file writes"). -/
theorem applyUpdate_write_direct_no_rename :
    (applyUpdate writeState writeSugg true).2.2 =
      [FsOp.write "docs/R1-NOTES.md" "# Title\n\nBody\n"] ∧
    (applyUpdate writeState writeSugg true).2.2.filter isRename = [] ∧
    (applyUpdate writeState writeSugg true).2.1.fs =
      [("docs/R1-NOTES.md", "# Title\n\nBody\n")] ∧
    (applyUpdate writeState writeSugg true).2.1.docIndexCached = false ∧
    (applyUpdate writeState writeSugg true).2.1.factIndexCached = false := by
  refine ⟨by decide, by decide, by decide, by decide, by decide⟩

end DocUpdate

/-! ## Search cache singleflight (utils/search-cache.ts)

JavaScript runs `SearchCache.get` on a single-threaded event loop, so each
code segment between `await` points executes atomically.  For one
serialized key (entries for different keys are independent) and two
concurrent `get` calls, each call has at most two atomic segments: the
start segment (cache lookup, inflight lookup, and — for the electing call —
installation of the inflight entry and invocation of `fetchFn`), and the
completion segment (for the installer: the code after `await fetchFn()`
including the `finally` cleanup; for a follower: the settlement of the
promise it returned).  The model below is a transition system over these
segments; a schedule is an arbitrary interleaving of moves of the two
calls, disabled moves being no-ops. -/

namespace SearchCacheModel

open SemanticSearch (SearchResult)

/-- Settlement of the elected fetch: the result list, or the rejection. -/
abbrev FetchOutcome := Except String (List SearchResult)

instance : DecidableEq FetchOutcome := fun x y =>
  match x, y with
  | .ok a, .ok b => decidable_of_iff (a = b) (by simp)
  | .error a, .error b => decidable_of_iff (a = b) (by simp)
  | .ok _, .error _ => isFalse (by simp)
  | .error _, .ok _ => isFalse (by simp)

/-- Position of one call inside `get`. -/
inductive CallPhase
  | start
  | awaitFetch
  | awaitPromise
  | done (outcome : FetchOutcome)
deriving DecidableEq, Repr

/-- Is this call mid-flight (started but not finished)? -/
def isActive : CallPhase → Bool
  | .awaitFetch => true
  | .awaitPromise => true
  | _ => false

/-- Shared per-key state of the cache: the result-cache entry, the
presence of the inflight map entry, the settlement of the inflight promise
(a settled promise keeps its value even after the map entry is deleted in
the `finally` phase), and the number of `fetchFn` invocations. -/
structure Shared where
  cache : Option (List SearchResult)
  inflight : Bool
  promiseResult : Option FetchOutcome
  fetchCount : Nat
deriving DecidableEq, Repr

/-- Global state: shared state plus the phase of each call, whether each
call's start segment missed the result cache, and whether some call
started while the other was mid-flight (the concurrency witness). -/
structure SfState where
  cache : Option (List SearchResult)
  inflight : Bool
  promiseResult : Option FetchOutcome
  fetchCount : Nat
  phaseA : CallPhase
  phaseB : CallPhase
  missedA : Bool
  missedB : Bool
  overlapped : Bool
deriving DecidableEq, Repr

/-- Shared projection. -/
def sharedOf (s : SfState) : Shared :=
  ⟨s.cache, s.inflight, s.promiseResult, s.fetchCount⟩

/-- One atomic segment of one call, following the body of `get`: a start
segment returns the cached value on a hit, awaits the existing promise on
an inflight hit, and otherwise installs the inflight entry and invokes
`fetchFn`; the installer's completion segment stores the result and
resolves the promise on success, or rejects it on failure, deleting the
inflight entry in both cases; a follower's completion segment adopts the
settled promise value.  Returns the new phase, the new shared state,
whether this was a cache-missing start, and whether this was a start that
overlapped the other call. -/
def advance (fr : FetchOutcome) (sh : Shared) (ph : CallPhase) (otherActive : Bool) :
    CallPhase × Shared × Bool × Bool :=
  match ph with
  | .start =>
    match sh.cache with
    | some r => (.done (.ok r), sh, false, otherActive)
    | none =>
      if sh.inflight then (.awaitPromise, sh, true, otherActive)
      else (.awaitFetch, { sh with inflight := true, fetchCount := sh.fetchCount + 1 },
        true, otherActive)
  | .awaitFetch =>
    match fr with
    | .ok r =>
      (.done (.ok r),
       { sh with cache := some r, promiseResult := some (.ok r), inflight := false },
       false, false)
    | .error e =>
      (.done (.error e), { sh with promiseResult := some (.error e), inflight := false },
       false, false)
  | .awaitPromise =>
    match sh.promiseResult with
    | some x => (.done x, sh, false, false)
    | none => (.awaitPromise, sh, false, false)
  | .done x => (.done x, sh, false, false)

/-- One scheduler move: `false` advances call A, `true` advances call B. -/
def step (fr : FetchOutcome) (s : SfState) (which : Bool) : SfState :=
  if which then
    let r := advance fr (sharedOf s) s.phaseB (isActive s.phaseA)
    { cache := r.2.1.cache, inflight := r.2.1.inflight, promiseResult := r.2.1.promiseResult,
      fetchCount := r.2.1.fetchCount, phaseA := s.phaseA, phaseB := r.1,
      missedA := s.missedA, missedB := s.missedB || r.2.2.1,
      overlapped := s.overlapped || r.2.2.2 }
  else
    let r := advance fr (sharedOf s) s.phaseA (isActive s.phaseB)
    { cache := r.2.1.cache, inflight := r.2.1.inflight, promiseResult := r.2.1.promiseResult,
      fetchCount := r.2.1.fetchCount, phaseA := r.1, phaseB := s.phaseB,
      missedA := s.missedA || r.2.2.1, missedB := s.missedB,
      overlapped := s.overlapped || r.2.2.2 }

/-- Both calls pending, empty cache, no inflight entry. -/
def initState : SfState :=
  { cache := none, inflight := false, promiseResult := none, fetchCount := 0,
    phaseA := .start, phaseB := .start, missedA := false, missedB := false,
    overlapped := false }

/-- Run a schedule. -/
def run (fr : FetchOutcome) (moves : List Bool) : SfState :=
  moves.foldl (step fr) initState

/-- Call A installed the inflight entry, call B has not started. -/
def stInstallA : SfState :=
  { cache := none, inflight := true, promiseResult := none, fetchCount := 1,
    phaseA := .awaitFetch, phaseB := .start, missedA := true, missedB := false,
    overlapped := false }

/-- Call B installed the inflight entry, call A has not started. -/
def stInstallB : SfState :=
  { cache := none, inflight := true, promiseResult := none, fetchCount := 1,
    phaseA := .start, phaseB := .awaitFetch, missedA := false, missedB := true,
    overlapped := false }

/-- The cache entry a settled fetch leaves behind. -/
def okCache (fr : FetchOutcome) : Option (List SearchResult) :=
  match fr with
  | .ok r => some r
  | .error _ => none

/-- Installer A mid-flight, B joined as follower. -/
def stFollowAB : SfState :=
  { cache := none, inflight := true, promiseResult := none, fetchCount := 1,
    phaseA := .awaitFetch, phaseB := .awaitPromise, missedA := true, missedB := true,
    overlapped := true }

/-- Installer B mid-flight, A joined as follower. -/
def stFollowBA : SfState :=
  { cache := none, inflight := true, promiseResult := none, fetchCount := 1,
    phaseA := .awaitPromise, phaseB := .awaitFetch, missedA := true, missedB := true,
    overlapped := true }

/-- Installer A finished before B started. -/
def stDoneA (fr : FetchOutcome) : SfState :=
  { cache := okCache fr, inflight := false, promiseResult := some fr, fetchCount := 1,
    phaseA := .done fr, phaseB := .start, missedA := true, missedB := false,
    overlapped := false }

/-- Installer B finished before A started. -/
def stDoneB (fr : FetchOutcome) : SfState :=
  { cache := okCache fr, inflight := false, promiseResult := some fr, fetchCount := 1,
    phaseA := .start, phaseB := .done fr, missedA := false, missedB := true,
    overlapped := false }

/-- Installer A finished, follower B still awaiting the promise. -/
def stODoneAB (fr : FetchOutcome) : SfState :=
  { cache := okCache fr, inflight := false, promiseResult := some fr, fetchCount := 1,
    phaseA := .done fr, phaseB := .awaitPromise, missedA := true, missedB := true,
    overlapped := true }

/-- Installer B finished, follower A still awaiting the promise. -/
def stODoneBA (fr : FetchOutcome) : SfState :=
  { cache := okCache fr, inflight := false, promiseResult := some fr, fetchCount := 1,
    phaseA := .awaitPromise, phaseB := .done fr, missedA := true, missedB := true,
    overlapped := true }

/-- Both calls finished on the overlapped path. -/
def stBothDone (fr : FetchOutcome) : SfState :=
  { cache := okCache fr, inflight := false, promiseResult := some fr, fetchCount := 1,
    phaseA := .done fr, phaseB := .done fr, missedA := true, missedB := true,
    overlapped := true }

/-- Reachability invariant: every reachable state is one of the named
configurations, or a non-overlapped state in which both calls have left
their start segment (the sequential tail, about which the claim says
nothing). -/
inductive Inv (fr : FetchOutcome) : SfState → Prop
  | init : Inv fr initState
  | installA : Inv fr stInstallA
  | installB : Inv fr stInstallB
  | followAB : Inv fr stFollowAB
  | followBA : Inv fr stFollowBA
  | doneA : Inv fr (stDoneA fr)
  | doneB : Inv fr (stDoneB fr)
  | oDoneAB : Inv fr (stODoneAB fr)
  | oDoneBA : Inv fr (stODoneBA fr)
  | bothDone : Inv fr (stBothDone fr)
  | seq (s : SfState) (hov : s.overlapped = false) (hA : s.phaseA ≠ .start)
      (hB : s.phaseB ≠ .start) : Inv fr s

end SearchCacheModel

namespace SearchCacheModel

theorem advance_nonstart (fr : FetchOutcome) (sh : Shared) (ph : CallPhase) (oa : Bool)
    (h : ph ≠ .start) :
    (advance fr sh ph oa).2.2.2 = false ∧ (advance fr sh ph oa).1 ≠ .start := by
  cases ph with
  | start => exact absurd rfl h
  | awaitFetch =>
    cases fr with
    | ok r => exact ⟨rfl, by intro hc; cases hc⟩
    | error e => exact ⟨rfl, by intro hc; cases hc⟩
  | awaitPromise =>
    cases hpr : sh.promiseResult with
    | some x =>
      refine ⟨?_, ?_⟩ <;> simp [advance, hpr]
    | none =>
      refine ⟨?_, ?_⟩ <;> simp [advance, hpr]
  | done x => exact ⟨rfl, by intro hc; cases hc⟩

theorem step_preserves_Inv (fr : FetchOutcome) (s : SfState) (w : Bool) (h : Inv fr s) :
    Inv fr (step fr s w) := by
  cases h with
  | init =>
    cases w with
    | false => exact Inv.installA
    | true => exact Inv.installB
  | installA =>
    cases w with
    | false =>
      cases fr with
      | ok r => exact Inv.doneA
      | error e => exact Inv.doneA
    | true => exact Inv.followAB
  | installB =>
    cases w with
    | false => exact Inv.followBA
    | true =>
      cases fr with
      | ok r => exact Inv.doneB
      | error e => exact Inv.doneB
  | followAB =>
    cases w with
    | false =>
      cases fr with
      | ok r => exact Inv.oDoneAB
      | error e => exact Inv.oDoneAB
    | true => exact Inv.followAB
  | followBA =>
    cases w with
    | false => exact Inv.followBA
    | true =>
      cases fr with
      | ok r => exact Inv.oDoneBA
      | error e => exact Inv.oDoneBA
  | doneA =>
    cases w with
    | false =>
      cases fr with
      | ok r => exact Inv.doneA
      | error e => exact Inv.doneA
    | true =>
      cases fr with
      | ok r => exact Inv.seq _ rfl (by intro hc; cases hc) (by intro hc; cases hc)
      | error e => exact Inv.seq _ rfl (by intro hc; cases hc) (by intro hc; cases hc)
  | doneB =>
    cases w with
    | false =>
      cases fr with
      | ok r => exact Inv.seq _ rfl (by intro hc; cases hc) (by intro hc; cases hc)
      | error e => exact Inv.seq _ rfl (by intro hc; cases hc) (by intro hc; cases hc)
    | true =>
      cases fr with
      | ok r => exact Inv.doneB
      | error e => exact Inv.doneB
  | oDoneAB =>
    cases w with
    | false =>
      cases fr with
      | ok r => exact Inv.oDoneAB
      | error e => exact Inv.oDoneAB
    | true => exact Inv.bothDone
  | oDoneBA =>
    cases w with
    | false => exact Inv.bothDone
    | true =>
      cases fr with
      | ok r => exact Inv.oDoneBA
      | error e => exact Inv.oDoneBA
  | bothDone =>
    cases w with
    | false =>
      cases fr with
      | ok r => exact Inv.bothDone
      | error e => exact Inv.bothDone
    | true =>
      cases fr with
      | ok r => exact Inv.bothDone
      | error e => exact Inv.bothDone
  | seq s hov hA hB =>
    cases w with
    | false =>
      rcases advance_nonstart fr (sharedOf s) s.phaseA (isActive s.phaseB) hA with ⟨hc, hp⟩
      refine Inv.seq _ ?_ ?_ ?_
      · show (s.overlapped || (advance fr (sharedOf s) s.phaseA (isActive s.phaseB)).2.2.2) = false
        rw [hov, hc]
        rfl
      · exact hp
      · exact hB
    | true =>
      rcases advance_nonstart fr (sharedOf s) s.phaseB (isActive s.phaseA) hB with ⟨hc, hp⟩
      refine Inv.seq _ ?_ ?_ ?_
      · show (s.overlapped || (advance fr (sharedOf s) s.phaseB (isActive s.phaseA)).2.2.2) = false
        rw [hov, hc]
        rfl
      · exact hA
      · exact hp

theorem run_Inv (fr : FetchOutcome) (moves : List Bool) : Inv fr (run fr moves) := by
  have haux : ∀ (ms : List Bool) (s : SfState), Inv fr s → Inv fr (ms.foldl (step fr) s) := by
    intro ms
    induction ms with
    | nil => intro s hs; exact hs
    | cons m ms ih =>
      intro s hs
      exact ih _ (step_preserves_Inv fr s m hs)
  exact haux moves initState Inv.init

end SearchCacheModel

namespace SearchCacheModel

/-- Claim C3: for every schedule in which two concurrent `get` calls with
the same serialized key both miss the result cache, overlap, and both
complete, the fetch function was invoked exactly once and both callers
receive the single fetch's outcome; if that fetch failed, both callers
reject, nothing is stored in the result cache and the inflight entry is
removed, and if it succeeded the result is cached. -/
theorem searchCache_singleflight (fr : FetchOutcome) (moves : List Bool)
    (oA oB : FetchOutcome)
    (hA : (run fr moves).phaseA = .done oA)
    (hB : (run fr moves).phaseB = .done oB)
    (hmA : (run fr moves).missedA = true)
    (hmB : (run fr moves).missedB = true)
    (hov : (run fr moves).overlapped = true) :
    (run fr moves).fetchCount = 1 ∧ oA = fr ∧ oB = fr ∧
    (∀ e, fr = .error e → (run fr moves).cache = none ∧ (run fr moves).inflight = false) ∧
    (∀ r, fr = .ok r → (run fr moves).cache = some r ∧ (run fr moves).inflight = false) := by
  have hinv := run_Inv fr moves
  generalize hgen : run fr moves = s at hA hB hmA hmB hov hinv
  cases hinv with
  | init => exact CallPhase.noConfusion hA
  | installA => exact CallPhase.noConfusion hB
  | installB => exact CallPhase.noConfusion hA
  | followAB => exact CallPhase.noConfusion hA
  | followBA => exact CallPhase.noConfusion hB
  | doneA => exact CallPhase.noConfusion hB
  | doneB => exact CallPhase.noConfusion hA
  | oDoneAB => exact CallPhase.noConfusion hB
  | oDoneBA => exact CallPhase.noConfusion hA
  | bothDone =>
    refine ⟨rfl, ?_, ?_, ?_, ?_⟩
    · injection hA with h
      exact h.symm
    · injection hB with h
      exact h.symm
    · intro e he
      subst he
      exact ⟨rfl, rfl⟩
    · intro r hr
      subst hr
      exact ⟨rfl, rfl⟩
  | seq s hov' hA' hB' =>
    rw [hov'] at hov
    exact Bool.noConfusion hov

/-- Claim C3 witness: the concrete schedule A-installs, B-follows,
A-completes, B-settles with a successful fetch returning the empty hit
list. -/
theorem searchCache_singleflight_witness :
    (run (.ok []) [false, true, false, true]).phaseA = .done (.ok []) ∧
    (run (.ok []) [false, true, false, true]).phaseB = .done (.ok []) ∧
    (run (.ok []) [false, true, false, true]).missedA = true ∧
    (run (.ok []) [false, true, false, true]).missedB = true ∧
    (run (.ok []) [false, true, false, true]).overlapped = true ∧
    (run (.ok []) [false, true, false, true]).fetchCount = 1 ∧
    (run (.ok []) [false, true, false, true]).cache = some [] :=
  ⟨by decide, by decide, by decide, by decide, by decide,
    (searchCache_singleflight (.ok []) [false, true, false, true] (.ok []) (.ok [])
      (by decide) (by decide) (by decide) (by decide) (by decide)).1,
    ((searchCache_singleflight (.ok []) [false, true, false, true] (.ok []) (.ok [])
      (by decide) (by decide) (by decide) (by decide) (by decide)).2.2.2.2 [] rfl).1⟩

end SearchCacheModel

/-! ## RAG pipeline (rag/pipeline.ts) -/

namespace RAG

/-- Chunk metadata carried by a vector-store row. -/
structure ChunkMeta where
  file : String
  release : String := ""
  docType : String := ""
  heading : String
  lineStart : Nat
  lineEnd : Nat
deriving DecidableEq, Repr

/-- A chunk as returned by the vector store. -/
structure Chunk where
  id : String
  content : String
  metadata : ChunkMeta
deriving DecidableEq, Repr

/-- A vector-store search hit (`SearchResult` of `store/milvus.ts`). -/
structure VSearchResult where
  chunk : Chunk
  score : Rat
deriving DecidableEq, Repr

/-- A reranked hit (`RerankedResult` of `rag/reranker.ts`). -/
structure RerankedResult where
  result : VSearchResult
  rerankScore : Rat
deriving DecidableEq, Repr

/-- The `Citation` record of `rag/pipeline.ts`. -/
structure Citation where
  file : String
  heading : String
  lineStart : Nat
  lineEnd : Nat
  snippet : String
  relevance : Rat
deriving DecidableEq, Repr

/-- The `RAGResponse` record of `rag/pipeline.ts`. -/
structure RAGResponse where
  answer : String
  citations : List Citation
  groundingScore : Rat
  insufficientEvidence : Bool
  missingTopics : Option (List String) := none
deriving DecidableEq, Repr

/-- The vector-store filter predicates. -/
structure SearchFilter where
  release : Option String := none
  docType : Option String := none
  service : Option String := none
  file : Option String := none
deriving DecidableEq, Repr

/-- The `RAGQuery` record of `rag/pipeline.ts`. -/
structure RAGQuery where
  query : String
  filters : Option SearchFilter := none
  maxTokens : Option Nat := none
  k : Option Nat := none
deriving DecidableEq, Repr

/-- The configuration fragment the modelled paths read: the retrieval
depth, and whether a Groq key was configured (the `this.groq` truthiness). -/
structure RAGConfigModel where
  topK : Nat := 10
  groqConfigured : Bool
deriving DecidableEq, Repr

/-- The pipeline's collaborators, abstracted as oracles (the pipeline holds
an embedder, a vector store, a reranker and an optional generation
provider; their internals are outside this claim's scope).  `generate`
returns `some text` when the provider call succeeds and `none` when it
throws; `maxTokens` and temperature are absorbed into the oracle. -/
structure Oracles where
  embed : String → List Rat
  search : List Rat → Nat → Option SearchFilter → List VSearchResult
  rerank : String → List VSearchResult → List RerankedResult
  generate : String → String → Option String

/-- Which collaborator calls a pipeline run performed, and with which
normalized query the embedder was invoked. -/
structure PipelineCalls where
  embedArg : Option String := none
  searchCalled : Bool := false
  rerankCalled : Bool := false
  generateCalled : Bool := false
deriving DecidableEq, Repr

/-- The method `RAGPipeline.normalizeQuery`: it only trims. -/
def normalizeQuery (query : String) : String :=
  jsTrim query

/-- The retrieval depth `params.k || this.config.topK` (a zero `k` is falsy
and falls back to the configured depth). -/
def effTopK (cfg : RAGConfigModel) (params : RAGQuery) : Nat :=
  match params.k with
  | some n => if n = 0 then cfg.topK else n
  | none => cfg.topK

/-- The JavaScript `content.slice(0, 300)`. -/
def jsSlice300 (s : String) : String :=
  ⟨s.data.take 300⟩

/-- The citation blocks accumulated by the loop of
`RAGPipeline.fallbackAnswer` (one block per citation of the top three). -/
def fallbackBlocks : List Citation → String
  | [] => ""
  | c :: rest =>
    "### " ++ c.heading ++ "\n**Source:** " ++ c.file ++ " (lines " ++
      toString c.lineStart ++ "-" ++ toString c.lineEnd ++ ")\n\n" ++
      c.snippet ++ "...\n\n" ++ fallbackBlocks rest

/-- The method `RAGPipeline.fallbackAnswer`: a header followed by blocks
for the top three citations (the `context` argument is accepted and unused,
as in the source). -/
def fallbackAnswer (context : String) (citations : List Citation) : String :=
  "## Relevant Documentation\n\n" ++ fallbackBlocks (citations.take 3)

/-- Result triple of `RAGPipeline.assessGrounding`. -/
structure Grounding where
  groundingScore : Rat
  insufficientEvidence : Bool
  missingTopics : Option (List String)
deriving DecidableEq, Repr

/-- The method `RAGPipeline.assessGrounding`: 0.3 when the answer carries a
bracket or the substring `lines`, 0.2 per citation whose heading appears
case-insensitively in the answer, capped at 1; insufficient evidence means
a score below 0.3. -/
def assessGrounding (answer : String) (citations : List Citation) : Grounding :=
  let score1 : Rat :=
    if jsIncludes answer "[" || jsIncludes answer "lines" then 0 + 3/10 else 0
  let score2 := citations.foldl
    (fun sc c => if jsIncludes (jsToLower answer) (jsToLower c.heading) then sc + 2/10 else sc)
    score1
  let score := min score2 1
  { groundingScore := score,
    insufficientEvidence := decide (score < 3/10),
    missingTopics := if score < 3/10 then some ["Additional context needed"] else none }

/-- The context blocks of `RAGPipeline.buildContext`. -/
def contextBlocks : Nat → List RerankedResult → String
  | _, [] => ""
  | i, r :: rest =>
    "[Citation " ++ toString (i + 1) ++ ": " ++ r.result.chunk.metadata.file ++ ", lines " ++
      toString r.result.chunk.metadata.lineStart ++ "-" ++
      toString r.result.chunk.metadata.lineEnd ++ "]\n" ++
      "Heading: " ++ r.result.chunk.metadata.heading ++ "\n" ++
      (if r.result.chunk.metadata.release ≠ "" then
        "Release: " ++ r.result.chunk.metadata.release ++ "\n" else "") ++
      "Content:\n" ++ r.result.chunk.content ++ "\n\n---\n\n" ++
      contextBlocks (i + 1) rest

/-- The method `RAGPipeline.buildContext`. -/
def buildContext (reranked : List RerankedResult) : String :=
  contextBlocks 0 reranked

/-- The method `RAGPipeline.generateAnswer` together with the flag of
whether the generation provider was invoked: without a configured provider
the fallback answer is returned directly; with one, a throwing provider
call is caught and also answered with the fallback. -/
def generateAnswer (cfg : RAGConfigModel) (generate : String → String → Option String)
    (query context : String) (citations : List Citation) : String × Bool :=
  if cfg.groqConfigured then
    match generate context query with
    | some text => (text, true)
    | none => (fallbackAnswer context citations, true)
  else (fallbackAnswer context citations, false)

/-- Steps 4 to 8 of `RAGPipeline.query`, taken when the vector search
returned hits: rerank, build the citations and the context, synthesize the
answer and assess its grounding. -/
def ragQueryHits (cfg : RAGConfigModel) (os : Oracles) (params : RAGQuery)
    (searchResults : List VSearchResult) : RAGResponse × PipelineCalls :=
  let normalizedQuery := normalizeQuery params.query
  let reranked := os.rerank normalizedQuery searchResults
  let citations := reranked.map fun r =>
    { file := r.result.chunk.metadata.file, heading := r.result.chunk.metadata.heading,
      lineStart := r.result.chunk.metadata.lineStart,
      lineEnd := r.result.chunk.metadata.lineEnd,
      snippet := jsSlice300 r.result.chunk.content, relevance := r.rerankScore }
  let context := buildContext (reranked.take 5)
  let ga := generateAnswer cfg os.generate normalizedQuery context citations
  let g := assessGrounding ga.1 citations
  ({ answer := ga.1, citations := citations, groundingScore := g.groundingScore,
     insufficientEvidence := g.insufficientEvidence, missingTopics := g.missingTopics },
   { embedArg := some normalizedQuery, searchCalled := true, rerankCalled := true,
     generateCalled := ga.2 })

/-- The method `RAGPipeline.query`, with the collaborator calls it makes
recorded alongside the response: normalize, embed, search, and either the
early zero-hit return or the full synthesis path. -/
def ragQuery (cfg : RAGConfigModel) (os : Oracles) (params : RAGQuery) :
    RAGResponse × PipelineCalls :=
  if (os.search (os.embed (normalizeQuery params.query)) (effTopK cfg params)
      params.filters).isEmpty then
    ({ answer := "No relevant documentation found for this query.", citations := [],
       groundingScore := 0, insufficientEvidence := true,
       missingTopics := some [params.query] },
     { embedArg := some (normalizeQuery params.query), searchCalled := true,
       rerankCalled := false, generateCalled := false })
  else
    ragQueryHits cfg os params
      (os.search (os.embed (normalizeQuery params.query)) (effTopK cfg params) params.filters)

end RAG

theorem jsToLower_append (s t : String) : jsToLower (s ++ t) = jsToLower s ++ jsToLower t := by
  apply String.ext
  simp [jsToLower, String.data_append]

theorem jsIncludes_append_left {s sub : String} (t : String) (h : jsIncludes s sub = true) :
    jsIncludes (t ++ s) sub = true := by
  rw [jsIncludes, inclAux_iff] at h ⊢
  rw [String.data_append]
  exact h.trans ⟨t.data, [], by simp⟩

theorem jsIncludes_append_right {s sub : String} (t : String) (h : jsIncludes s sub = true) :
    jsIncludes (s ++ t) sub = true := by
  rw [jsIncludes, inclAux_iff] at h ⊢
  rw [String.data_append]
  exact h.trans ⟨[], t.data, by simp⟩

theorem jsIncludes_self (s : String) : jsIncludes s s = true := by
  rw [jsIncludes, inclAux_iff]

namespace RAG

theorem fallbackBlocks_includes_lines (c : Citation) (l : List Citation) :
    jsIncludes (fallbackBlocks (c :: l)) "lines" = true := by
  show jsIncludes ("### " ++ c.heading ++ "\n**Source:** " ++ c.file ++ " (lines " ++
      toString c.lineStart ++ "-" ++ toString c.lineEnd ++ ")\n\n" ++
      c.snippet ++ "...\n\n" ++ fallbackBlocks l) "lines" = true
  apply jsIncludes_append_right
  apply jsIncludes_append_right
  apply jsIncludes_append_right
  apply jsIncludes_append_right
  apply jsIncludes_append_right
  apply jsIncludes_append_right
  apply jsIncludes_append_right
  apply jsIncludes_append_left
  decide

theorem fallbackBlocks_includes_heading (c : Citation) (l : List Citation) (hc : c ∈ l) :
    jsIncludes (jsToLower (fallbackBlocks l)) (jsToLower c.heading) = true := by
  induction l with
  | nil => cases hc
  | cons d rest ih =>
    rcases List.mem_cons.mp hc with rfl | hmem
    · show jsIncludes (jsToLower ("### " ++ c.heading ++ "\n**Source:** " ++ c.file ++
        " (lines " ++ toString c.lineStart ++ "-" ++ toString c.lineEnd ++ ")\n\n" ++
        c.snippet ++ "...\n\n" ++ fallbackBlocks rest)) (jsToLower c.heading) = true
      simp only [jsToLower_append]
      apply jsIncludes_append_right
      apply jsIncludes_append_right
      apply jsIncludes_append_right
      apply jsIncludes_append_right
      apply jsIncludes_append_right
      apply jsIncludes_append_right
      apply jsIncludes_append_right
      apply jsIncludes_append_right
      apply jsIncludes_append_right
      apply jsIncludes_append_right
      apply jsIncludes_append_left
      exact jsIncludes_self _
    · show jsIncludes (jsToLower ("### " ++ d.heading ++ "\n**Source:** " ++ d.file ++
        " (lines " ++ toString d.lineStart ++ "-" ++ toString d.lineEnd ++ ")\n\n" ++
        d.snippet ++ "...\n\n" ++ fallbackBlocks rest)) (jsToLower c.heading) = true
      simp only [jsToLower_append]
      apply jsIncludes_append_left
      exact ih hmem

theorem grounding_foldl_le (answer : String) (l : List Citation) :
    ∀ x : Rat, x ≤ l.foldl
      (fun sc c => if jsIncludes (jsToLower answer) (jsToLower c.heading) then sc + 2/10 else sc)
      x := by
  induction l with
  | nil => intro x; exact le_refl x
  | cons c rest ih =>
    intro x
    refine le_trans ?_ (ih _)
    show x ≤ if jsIncludes (jsToLower answer) (jsToLower c.heading) = true then x + 2/10 else x
    split
    · linarith
    · exact le_refl x

end RAG

namespace RAG

/-- Claim C10: on the fallback generation path with a non-empty citation
list, the fallback answer always contains the substring `lines` (from its
`**Source:** <file> (lines a-b)` lines) and each of the top three
citations' headings, so the grounding assessment yields a score of at least
0.3 and `insufficientEvidence` is false — an insufficient-evidence response
can never be produced on the fallback path when any hit was retrieved. -/
theorem fallback_grounded (context : String) (citations : List Citation)
    (h : citations ≠ []) :
    jsIncludes (fallbackAnswer context citations) "lines" = true ∧
    (∀ c ∈ citations.take 3,
      jsIncludes (jsToLower (fallbackAnswer context citations)) (jsToLower c.heading) = true) ∧
    3/10 ≤ (assessGrounding (fallbackAnswer context citations) citations).groundingScore ∧
    (assessGrounding (fallbackAnswer context citations) citations).insufficientEvidence
      = false := by
  obtain ⟨c, rest, rfl⟩ := List.exists_cons_of_ne_nil h
  have hlines : jsIncludes (fallbackAnswer context (c :: rest)) "lines" = true := by
    unfold fallbackAnswer
    apply jsIncludes_append_left
    exact fallbackBlocks_includes_lines c _
  have hscore : 3/10 ≤
      (assessGrounding (fallbackAnswer context (c :: rest)) (c :: rest)).groundingScore := by
    unfold assessGrounding
    simp only [hlines, Bool.or_true, if_true]
    refine le_min ?_ (by norm_num)
    have hfold := grounding_foldl_le (fallbackAnswer context (c :: rest)) (c :: rest)
      ((0 : Rat) + 3/10)
    linarith
  have hrfl : (assessGrounding (fallbackAnswer context (c :: rest)) (c :: rest)).insufficientEvidence
      = decide ((assessGrounding (fallbackAnswer context (c :: rest))
          (c :: rest)).groundingScore < 3/10) := rfl
  refine ⟨hlines, ?_, hscore, ?_⟩
  · intro d hd
    unfold fallbackAnswer
    simp only [jsToLower_append]
    apply jsIncludes_append_left
    exact fallbackBlocks_includes_heading d _ hd
  · rw [hrfl]
    exact decide_eq_false (not_lt.mpr hscore)

/-- Citation used by the pipeline witnesses. -/
def wCitation : Citation :=
  { file := "R1-ARCHITECTURE.md", heading := "Database Layer", lineStart := 10, lineEnd := 20,
    snippet := "Database uses PostgreSQL", relevance := 1 }

/-- Claim C10 witness: the fallback-grounding theorem at one concrete
citation. -/
theorem fallback_grounded_witness :
    ([wCitation] ≠ ([] : List Citation)) ∧
    3/10 ≤ (assessGrounding (fallbackAnswer "" [wCitation]) [wCitation]).groundingScore ∧
    (assessGrounding (fallbackAnswer "" [wCitation]) [wCitation]).insufficientEvidence = false :=
  ⟨by decide, (fallback_grounded "" [wCitation] (by decide)).2.2.1,
    (fallback_grounded "" [wCitation] (by decide)).2.2.2⟩

/-- Claim C6: when the vector search returns zero hits the pipeline
returns exactly the no-documentation response, with the original
(untrimmed) query as the missing topic, and invokes neither the reranker
nor the generation provider. -/
theorem ragQuery_zero_hits (cfg : RAGConfigModel) (os : Oracles) (params : RAGQuery)
    (h : os.search (os.embed (normalizeQuery params.query)) (effTopK cfg params)
      params.filters = []) :
    ragQuery cfg os params =
      ({ answer := "No relevant documentation found for this query.", citations := [],
         groundingScore := 0, insufficientEvidence := true,
         missingTopics := some [params.query] },
       { embedArg := some (normalizeQuery params.query), searchCalled := true,
         rerankCalled := false, generateCalled := false }) := by
  unfold ragQuery
  rw [h]
  rfl

/-- Oracles whose vector search finds nothing. -/
def idleOracles : Oracles :=
  { embed := fun _ => [], search := fun _ _ _ => [],
    rerank := fun _ hits => hits.map fun r => ⟨r, r.score⟩, generate := fun _ _ => none }

/-- Claim C6 witness: the zero-hit theorem at a concrete query. -/
theorem ragQuery_zero_hits_witness :
    idleOracles.search (idleOracles.embed (normalizeQuery "missing topic"))
      (effTopK { groqConfigured := false } { query := "missing topic" }) none = [] ∧
    ragQuery { groqConfigured := false } idleOracles { query := "missing topic" } =
      ({ answer := "No relevant documentation found for this query.", citations := [],
         groundingScore := 0, insufficientEvidence := true,
         missingTopics := some ["missing topic"] },
       { embedArg := some "missing topic", searchCalled := true, rerankCalled := false,
         generateCalled := false }) :=
  ⟨rfl, ragQuery_zero_hits { groqConfigured := false } idleOracles { query := "missing topic" } rfl⟩

/-- Claim C7, counterexample to the claim as stated: with a whitespace-only
query the pipeline performs the embedding call (on the empty normalized
query) and the vector search — no validation error precedes the I/O,
because `normalizeQuery` only trims and nothing checks for emptiness. -/
theorem ragQuery_empty_query_cx :
    ((ragQuery { groqConfigured := false } idleOracles { query := "   " }).2).embedArg
      = some "" ∧
    ((ragQuery { groqConfigured := false } idleOracles { query := "   " }).2).searchCalled
      = true := by
  decide

/-- Claim C7 (amended): a query whose trimmed form is empty is not
rejected: the pipeline proceeds to invoke the embedder on the empty string
and then the vector search. -/
theorem ragQuery_empty_query_proceeds (cfg : RAGConfigModel) (os : Oracles) (params : RAGQuery)
    (h : jsTrim params.query = "") :
    ((ragQuery cfg os params).2).embedArg = some "" ∧
    ((ragQuery cfg os params).2).searchCalled = true := by
  unfold ragQuery
  split <;>
    exact ⟨by simp [ragQueryHits, normalizeQuery, h], rfl⟩

/-- Claim C7 witness: the amended theorem at a concrete whitespace-only
query. -/
theorem ragQuery_empty_query_proceeds_witness :
    jsTrim "   " = "" ∧
    ((ragQuery { groqConfigured := false } idleOracles { query := "   " }).2).embedArg
      = some "" :=
  ⟨by decide,
    (ragQuery_empty_query_proceeds { groqConfigured := false } idleOracles { query := "   " }
      (by decide)).1⟩

end RAG
